import Mathlib

/-!
Verification of the HTML decomposition / reconstruction engine of the yarr
repository: the Notion export converter (`src/notion/converter.go`), the
inline HTML translator (`translator` package, `html_translator.go`),
and the Notion client batching logic (`notion/client.go`).

Go strings are modelled as lists of characters (`Str`); `len`, slicing and
concatenation on Go strings correspond to `List.length`, `take`/`drop` and
`++` on `Str`.  HTML nodes (golang.org/x/net/html `*html.Node`) are modelled
by the inductive `HNode` with text nodes, element nodes (tag, attributes,
children) and the document node produced by the external parser.
-/

/-- A Go string, modelled as its sequence of characters. -/
abbrev Str := List Char

/-- Embed a Lean string literal into the `Str` model. -/
def str (s : String) : Str := s.toList

/-- Whitespace test used by Go's `strings.TrimSpace`
(ASCII whitespace plus NEL and NBSP; further Unicode space code points
behave identically for every development in this file). -/
def isSpaceChar (c : Char) : Bool :=
  c = ' ' || c = '\t' || c = '\n' || c = '\x0b' || c = '\x0c' || c = '\r' ||
  c = '\x85' || c = '\xa0'

/-- Go `strings.TrimSpace`: drop leading and trailing whitespace. -/
def trimSpace (s : Str) : Str :=
  ((s.dropWhile isSpaceChar).reverse.dropWhile isSpaceChar).reverse

/-- A node of the parsed HTML tree (golang.org/x/net/html).  `text` is an
`html.TextNode` (payload `Data`), `elem` an `html.ElementNode` (`Data` is the
tag, plus attributes and children), `doc` the `html.DocumentNode` root that
`html.Parse` returns. -/
inductive HNode where
  | text (data : Str)
  | elem (tag : String) (attrs : List (String × String)) (children : List HNode)
  | doc (children : List HNode)

/-- The `Data` field of a Go `html.Node`: the raw text for a text node, the
tag name for an element node, empty for the document node. -/
def nodeData : HNode → Str
  | .text d => d
  | .elem tag _ _ => str tag
  | .doc _ => []

/-- Whether the node has Go type `html.TextNode`. -/
def isTextNode : HNode → Bool
  | .text _ => true
  | _ => false

/-! ## Notion converter (`src/notion/converter.go`) -/

/-- `MaxBlockTextLength` from `converter.go`: Notion's per-rich-text limit. -/
def MaxBlockTextLength : Nat := 2000

/-- A Notion `Block` (`types.go`).  The Go struct stores one pointer field per
block kind, exactly one of which is non-nil and carries the rich text; this is
collapsed into the `type` discriminator plus a single `richText` list.  Each
`RichText{Text{Content}}` element is collapsed to its content string.
`language` is the extra field of the `code` payload. -/
structure Block where
  object : String
  type : String
  richText : List Str
  language : Option String
deriving DecidableEq

/-- The loop of `splitTextIntoChunks` (`converter.go` lines 59-67):
while `len(text) > maxLen` emit `text[:maxLen]` and continue with
`text[maxLen:]`; afterwards emit the non-empty remainder.  The structural
`fuel` argument bounds the number of loop iterations: every iteration
removes `maxLen ≥ 1` characters, so `text.length` iterations always suffice
at the call site below and the zero-fuel fallthrough (which emits the
remainder like the post-loop step) is never reached with a longer-than-fuel
text.  (For `maxLen = 0` the Go loop would not terminate; the function is
only invoked with `maxLen = MaxBlockTextLength`.) -/
def splitChunksLoopFuel (maxLen : Nat) : Nat → Str → List Str
  | 0, text => if 0 < text.length then [text] else []
  | fuel + 1, text =>
    if maxLen < text.length then
      text.take maxLen :: splitChunksLoopFuel maxLen fuel (text.drop maxLen)
    else if 0 < text.length then [text] else []

/-- `splitTextIntoChunks` (`converter.go`): texts within the limit are
returned whole; longer texts go through the chunking loop. -/
def splitTextIntoChunks (text : Str) (maxLen : Nat) : List Str :=
  if text.length ≤ maxLen then [text]
  else splitChunksLoopFuel maxLen text.length text

mutual

/-- `extractText` (`converter.go` lines 185-204): a text node yields its
trimmed data; container tags `ul`, `ol`, `div` yield nothing; otherwise the
children's contributions are concatenated and the result trimmed. -/
def extractText : HNode → Str
  | .text d => trimSpace d
  | .elem tag _ cs =>
    if tag = "ul" ∨ tag = "ol" ∨ tag = "div" then []
    else trimSpace (extractChildren cs)
  | .doc cs => trimSpace (extractChildren cs)

/-- The child loop of `extractText`: text-node children contribute their raw
(untrimmed) data, element children contribute their own `extractText`, other
children contribute nothing. -/
def extractChildren : List HNode → Str
  | [] => []
  | .text d :: rest => d ++ extractChildren rest
  | .elem tag attrs cs :: rest => extractText (.elem tag attrs cs) ++ extractChildren rest
  | .doc _ :: rest => extractChildren rest

end

/-- Whether `convertNodeToBlocks` treats the node as a heading
(`n.Data == "h1" || n.Data == "h2" || n.Data == "h3"`, line 81). -/
abbrev isHeadingNode (n : HNode) : Prop :=
  nodeData n = str "h1" ∨ nodeData n = str "h2" ∨ nodeData n = str "h3"

/-- The text of a node after the heading-truncation step of
`convertNodeToBlocks` (lines 82-84): an over-long heading is cut to
`MaxBlockTextLength - 3` characters with `"..."` appended. -/
def headingText (n : HNode) : Str :=
  if isHeadingNode n ∧ MaxBlockTextLength < (extractText n).length then
    (extractText n).take (MaxBlockTextLength - 3) ++ str "..."
  else extractText n

/-- The chunk list of `convertNodeToBlocks` (lines 87-90): over-long
non-heading text is chunk-split; anything else is a single chunk. -/
def convertChunks (n : HNode) : List Str :=
  if ¬ isHeadingNode n ∧ MaxBlockTextLength < (headingText n).length then
    splitTextIntoChunks (headingText n) MaxBlockTextLength
  else [headingText n]

/-- The effect of one iteration of the per-chunk loop of
`convertNodeToBlocks` (the `switch n.Data`): emit a block, skip the chunk
(`continue`), or abort the whole conversion (`return nil`). -/
inductive ChunkStep where
  | emit (b : Block)
  | skip
  | abort

/-- The `switch n.Data` of `convertNodeToBlocks` (lines 102-178), applied to
one chunk: the recognised tags produce a block whose rich text is the single
chunk; `ul`, `ol`, `div` return nil; a text node with non-blank data becomes
a paragraph; everything else is skipped via `continue`. -/
def chunkStep (n : HNode) (chunk : Str) : ChunkStep :=
  if nodeData n = str "h1" then .emit ⟨"block", "heading_1", [chunk], none⟩
  else if nodeData n = str "h2" then .emit ⟨"block", "heading_2", [chunk], none⟩
  else if nodeData n = str "h3" then .emit ⟨"block", "heading_3", [chunk], none⟩
  else if nodeData n = str "li" then .emit ⟨"block", "bulleted_list_item", [chunk], none⟩
  else if nodeData n = str "blockquote" then .emit ⟨"block", "quote", [chunk], none⟩
  else if nodeData n = str "pre" ∨ nodeData n = str "code" then
    .emit ⟨"block", "code", [chunk], some "plain text"⟩
  else if nodeData n = str "p" then .emit ⟨"block", "paragraph", [chunk], none⟩
  else if nodeData n = str "ul" ∨ nodeData n = str "ol" ∨ nodeData n = str "div" then .abort
  else if isTextNode n = true ∧ trimSpace (nodeData n) ≠ [] then
    .emit ⟨"block", "paragraph", [chunk], none⟩
  else .skip

/-- The per-chunk loop of `convertNodeToBlocks`: accumulate emitted blocks in
order; `abort` makes the whole function return nil (modelled as `none`). -/
def chunksLoop (n : HNode) : List Str → Option (List Block)
  | [] => some []
  | c :: rest =>
    match chunkStep n c with
    | .abort => none
    | .skip => chunksLoop n rest
    | .emit b => (chunksLoop n rest).map (b :: ·)

/-- `convertNodeToBlocks` (`converter.go` lines 72-183): nodes with empty
extracted text produce nothing; otherwise the chunk list is computed
(headings truncated, over-long non-headings split) and the per-chunk loop
run, with a nil result flattened to the empty list. -/
def convertNodeToBlocks (n : HNode) : List Block :=
  if extractText n = [] then []
  else
    match chunksLoop n (convertChunks n) with
    | none => []
    | some bs => bs

mutual

/-- The traversal `f` inside `HTMLToNotionBlocks` (lines 21-29): element
nodes are converted, then every node's children are visited unconditionally,
collecting blocks in document order. -/
def collectBlocks : HNode → List Block
  | .text _ => []
  | .elem tag attrs cs => convertNodeToBlocks (.elem tag attrs cs) ++ collectBlocksList cs
  | .doc cs => collectBlocksList cs

/-- Child loop of the `HTMLToNotionBlocks` traversal. -/
def collectBlocksList : List HNode → List Block
  | [] => []
  | c :: rest => collectBlocks c ++ collectBlocksList rest

end

/-- The placeholder block appended when no block was generated
(`converter.go` lines 34-48): one paragraph with a single empty rich text. -/
def emptyParagraphBlock : Block := ⟨"block", "paragraph", [[]], none⟩

/-- `HTMLToNotionBlocks` (`converter.go` lines 12-51), applied to the tree
returned by the external parser (`html.Parse`, which does not fail on
strings): collect blocks over the whole tree and substitute a single empty
paragraph when nothing was produced. -/
def HTMLToNotionBlocks (d : HNode) : List Block :=
  let blocks := collectBlocks d
  if blocks = [] then [emptyParagraphBlock] else blocks

/-! ## Inline HTML translator (`translator` package) -/

/-- `isCodeBlock` (`html_translator.go`): element nodes with an opaque tag
(`pre`, `code`, `kbd`, `samp`, `var`); the Go map lookup is written as the
corresponding tag disjunction. -/
def isCodeBlock : HNode → Bool
  | .elem tag _ _ =>
    tag == "pre" || tag == "code" || tag == "kbd" || tag == "samp" || tag == "var"
  | _ => false

/-- `isTranslatableBlock` (`html_translator.go`): element nodes with a block
tag. -/
def isTranslatableBlock : HNode → Bool
  | .elem tag _ _ =>
    tag == "p" || tag == "div" || tag == "h1" || tag == "h2" || tag == "h3" ||
    tag == "h4" || tag == "h5" || tag == "h6" || tag == "li" ||
    tag == "blockquote" || tag == "td" || tag == "th" || tag == "dd" ||
    tag == "dt" || tag == "figcaption"
  | _ => false

mutual

/-- The translator's `extractText` (`html_translator.go`): text nodes yield
their raw data, code blocks yield nothing, all other nodes concatenate their
children's extraction. -/
def trExtractText : HNode → Str
  | .text d => d
  | .elem tag attrs cs =>
    if isCodeBlock (.elem tag attrs cs) then [] else trExtractChildren cs
  | .doc cs => trExtractChildren cs

/-- Child loop of the translator's `extractText`. -/
def trExtractChildren : List HNode → Str
  | [] => []
  | c :: rest => trExtractText c ++ trExtractChildren rest

end

/-- `html.EscapeString` of the external html library on one character:
`&`, `'`, `<`, `>` and `"` become entities. -/
def escapeChar (c : Char) : Str :=
  if c = '&' then str "&amp;"
  else if c = '\x27' then str "&#39;"
  else if c = '<' then str "&lt;"
  else if c = '>' then str "&gt;"
  else if c = '"' then str "&#34;"
  else [c]

/-- `html.EscapeString` of the external html library. -/
def escapeHTML (s : Str) : Str := (s.map escapeChar).flatten

/-- Attribute serialization ` key="escaped value"`, as produced both by the
external `html.Render` and by `createTranslationElement`'s
`fmt.Sprintf(...)` loop. -/
def attrsString : List (String × String) → Str
  | [] => []
  | (k, v) :: rest =>
    str " " ++ str k ++ str "=\"" ++ escapeHTML (str v) ++ str "\"" ++ attrsString rest

mutual

/-- The external library serializer `html.Render`, which the translator uses
to write a subtree back out verbatim: standard HTML serialization of the
modelled node shapes (text escaped, elements with attributes and a closing
tag, the document node rendering its children). -/
def render : HNode → Str
  | .text d => escapeHTML d
  | .elem tag attrs cs =>
    str "<" ++ str tag ++ attrsString attrs ++ str ">" ++
    renderChildren cs ++ str "</" ++ str tag ++ str ">"
  | .doc cs => renderChildren cs

/-- Child loop of the serializer. -/
def renderChildren : List HNode → Str
  | [] => []
  | c :: rest => render c ++ renderChildren rest

end

/-- The fixed marker attributes appended by `createTranslationElement`
(`html_translator.go`): a `yarr-translation` class and an inline style. -/
def translationAttrSuffix : Str :=
  str " class=\"yarr-translation\" style=\"color: #555; margin-top: 0.3em; margin-bottom: 1em; padding-left: 1.2em; border-left: 4px solid #4CAF50 !important; background-color: rgba(76, 175, 80, 0.05);\""

/-- `createTranslationElement` (`html_translator.go`): same tag as the
original, its attributes copied (escaped), the marker class and style
appended, and the escaped translated text as sole content. -/
def createTranslationElement (n : HNode) (translated : Str) : Str :=
  str "<" ++ nodeData n ++ attrsString (match n with | .elem _ a _ => a | _ => []) ++
  translationAttrSuffix ++ str ">" ++ escapeHTML translated ++
  str "</" ++ nodeData n ++ str ">"

mutual

/-- `traverseAndTranslate` (`html_translator.go` lines 46-93).  The injected
`Translate` capability is modelled by `tr` (`none` = error).  The result is
the text written to the output builder, the list of texts passed to
`Translate` (in call order), and the returned Go error (`true` = non-nil;
every path of the source returns nil).  Opaque nodes are rendered verbatim;
translatable blocks with non-blank extracted text are rendered and, on
translation success, followed by the derived sibling; all other nodes only
traverse their children. -/
def traverseAndTranslate (tr : Str → Option Str) : HNode → Str × List Str × Bool
  | .text _ => ([], [], false)
  | .elem tag attrs cs =>
    if isCodeBlock (.elem tag attrs cs) then (render (.elem tag attrs cs), [], false)
    else if isTranslatableBlock (.elem tag attrs cs) then
      if trimSpace (trExtractText (.elem tag attrs cs)) ≠ [] then
        match tr (trimSpace (trExtractText (.elem tag attrs cs))) with
        | none =>
          (render (.elem tag attrs cs), [trimSpace (trExtractText (.elem tag attrs cs))], false)
        | some translated =>
          (render (.elem tag attrs cs) ++
             createTranslationElement (.elem tag attrs cs) translated,
           [trimSpace (trExtractText (.elem tag attrs cs))], false)
      else ([], [], false)
    else traverseChildren tr cs
  | .doc cs => traverseChildren tr cs

/-- The child loop of `traverseAndTranslate` (lines 85-90): children are
processed in order; a child returning a non-nil error aborts the loop and
propagates it (no path actually produces one). -/
def traverseChildren (tr : Str → Option Str) : List HNode → Str × List Str × Bool
  | [] => ([], [], false)
  | c :: rest =>
    let r := traverseAndTranslate tr c
    if r.2.2 then (r.1, r.2.1, true)
    else
      let r2 := traverseChildren tr rest
      (r.1 ++ r2.1, r.2.1 ++ r2.2.1, r2.2.2)

end

/-! ## Notion client batching (`notion/client.go`) -/

/-- `maxBlocksPerRequest` (`client.go`): the Notion API cap of 100 blocks per
request, used both by `CreatePage` and by `appendBlocks`. -/
def MaxBlocksPerRequest : Nat := 100

/-- The batch decomposition performed by the loop of `appendBlocks`
(`client.go` lines 132-142): slices `blocks[i:min(i+100,len)]` for
`i = 0, 100, 200, ...`, written as repeated take/drop.  The structural
`fuel` argument bounds the number of loop iterations; each iteration
removes at least one block, so `blocks.length` iterations suffice at the
call site below and the zero-fuel case only ever sees an empty list. -/
def appendBatchesFuel : Nat → List Block → List (List Block)
  | 0, _ => []
  | fuel + 1, blocks =>
    if blocks = [] then []
    else blocks.take MaxBlocksPerRequest :: appendBatchesFuel fuel (blocks.drop MaxBlocksPerRequest)

/-- The batches sent by one call of `appendBlocks` (`client.go`). -/
def appendBatches (blocks : List Block) : List (List Block) :=
  appendBatchesFuel blocks.length blocks

/-- The request plan of `CreatePage` (`client.go` lines 53-56 and 117-123):
the initial creation request carries `blocks[:100]` when more than 100 blocks
exist (otherwise all of them), and the remainder `blocks[100:]` is split into
append batches. -/
def createPagePlan (blocks : List Block) : List Block × List (List Block) :=
  (if MaxBlocksPerRequest < blocks.length then blocks.take MaxBlocksPerRequest else blocks,
   if MaxBlocksPerRequest < blocks.length then appendBatches (blocks.drop MaxBlocksPerRequest)
   else [])

/-- The batch loop of `appendBlocks`, with the outcome of each
`appendBlocksBatch` HTTP call supplied by the oracle `appendOk` (indexed by
batch number): `false` is returned as soon as one batch fails. -/
def appendBlocksRun (appendOk : Nat → Bool) : List (List Block) → Nat → Bool
  | [], _ => true
  | _ :: rest, i => if appendOk i then appendBlocksRun appendOk rest (i + 1) else false

/-- The result shape of `CreatePage` (`client.go` lines 42-126): the returned
URL string together with whether a non-nil error was returned.  `create`
models the outcome of the page-creation request (conversion, marshalling,
HTTP call and response parsing): `none` is any failure, `some (id, url)` a
parsed success response.  On creation failure the empty URL is returned with
the error; when more than 100 blocks exist the remainder is appended, and an
append failure returns the created page's URL together with the error. -/
def CreatePage (create : Option (String × String)) (appendOk : Nat → Bool)
    (blocks : List Block) : String × Bool :=
  match create with
  | none => ("", true)
  | some (_, url) =>
    if MaxBlocksPerRequest < blocks.length then
      if appendBlocksRun appendOk (appendBatches (blocks.drop MaxBlocksPerRequest)) 0 then
        (url, false)
      else (url, true)
    else (url, false)

/-! ## Properties of the chunk splitter -/

/-- Every chunk produced by the splitting loop respects the bound, provided
the fuel covers the text (as at the call site). -/
theorem splitChunksLoopFuel_le (maxLen : Nat) (hpos : 0 < maxLen) :
    ∀ (fuel : Nat) (text : Str), text.length ≤ fuel + maxLen →
      ∀ c ∈ splitChunksLoopFuel maxLen fuel text, c.length ≤ maxLen := by
  intro fuel
  induction fuel with
  | zero =>
    intro text ht c hc
    rw [splitChunksLoopFuel] at hc
    split at hc
    · rcases List.mem_singleton.mp hc with rfl
      omega
    · simp at hc
  | succ fuel ih =>
    intro text ht c hc
    rw [splitChunksLoopFuel] at hc
    split at hc
    next h1 =>
      rcases List.mem_cons.mp hc with rfl | hc
      · simp [List.length_take]
      · exact ih (text.drop maxLen) (by simp only [List.length_drop]; omega) c hc
    next h1 =>
      split at hc
      · rcases List.mem_singleton.mp hc with rfl
        omega
      · simp at hc

/-- The splitting loop is lossless: its chunks concatenate back to the
input, for any fuel. -/
theorem splitChunksLoopFuel_flatten (maxLen : Nat) :
    ∀ (fuel : Nat) (text : Str), (splitChunksLoopFuel maxLen fuel text).flatten = text := by
  intro fuel
  induction fuel with
  | zero =>
    intro text
    rw [splitChunksLoopFuel]
    split
    · simp
    · next h =>
        have : text = [] := List.eq_nil_of_length_eq_zero (by omega)
        simp [this]
  | succ fuel ih =>
    intro text
    rw [splitChunksLoopFuel]
    split
    · rw [List.flatten_cons, ih]
      exact List.take_append_drop _ _
    · split
      · simp
      · next _ h =>
          have : text = [] := List.eq_nil_of_length_eq_zero (by omega)
          simp [this]

/-- Shape of the splitting loop's output on a non-empty input covered by the
fuel: chunks of exactly `maxLen` characters followed by a non-empty final
chunk of at most `maxLen` characters. -/
theorem splitChunksLoopFuel_shape (maxLen : Nat) (hpos : 0 < maxLen) :
    ∀ (fuel : Nat) (text : Str), text.length ≤ fuel + maxLen → 0 < text.length →
      ∃ body last, splitChunksLoopFuel maxLen fuel text = body ++ [last] ∧
        (∀ c ∈ body, c.length = maxLen) ∧ 0 < last.length ∧ last.length ≤ maxLen := by
  intro fuel
  induction fuel with
  | zero =>
    intro text ht hlen
    rw [splitChunksLoopFuel, if_pos hlen]
    exact ⟨[], text, rfl, by simp, hlen, by omega⟩
  | succ fuel ih =>
    intro text ht hlen
    rw [splitChunksLoopFuel]
    split
    next h1 =>
      obtain ⟨body, last, heq, hbody, hl1, hl2⟩ :=
        ih (text.drop maxLen) (by simp only [List.length_drop]; omega)
          (by simp only [List.length_drop]; omega)
      refine ⟨text.take maxLen :: body, last, ?_, ?_, hl1, hl2⟩
      · rw [heq]
        rfl
      · intro c hc
        rcases List.mem_cons.mp hc with rfl | hc
        · simp [List.length_take]
          omega
        · exact hbody c hc
    next h1 =>
      exact ⟨[], text, rfl, by simp, hlen, by omega⟩

/-- Every chunk returned by `splitTextIntoChunks` respects the bound. -/
theorem splitTextIntoChunks_le (text : Str) (maxLen : Nat) (hpos : 0 < maxLen) :
    ∀ c ∈ splitTextIntoChunks text maxLen, c.length ≤ maxLen := by
  intro c hc
  rw [splitTextIntoChunks] at hc
  split at hc
  · rcases List.mem_singleton.mp hc with rfl
    assumption
  · exact splitChunksLoopFuel_le maxLen hpos text.length text (by omega) c hc

/-- `splitTextIntoChunks` is lossless. -/
theorem splitTextIntoChunks_flatten (text : Str) (maxLen : Nat) :
    (splitTextIntoChunks text maxLen).flatten = text := by
  rw [splitTextIntoChunks]
  split
  · simp
  · exact splitChunksLoopFuel_flatten maxLen text.length text

/-- C3: for every text and every positive `maxLen`, `splitTextIntoChunks`
returns `[text]` when the text fits, and otherwise consecutive slices of
exactly `maxLen` characters followed by a non-empty final remainder of at
most `maxLen` characters, concatenating back to the input. -/
theorem C3_splitTextIntoChunks_spec (text : Str) (maxLen : Nat) (hpos : 0 < maxLen) :
    (text.length ≤ maxLen → splitTextIntoChunks text maxLen = [text]) ∧
    (maxLen < text.length →
      ∃ body last, splitTextIntoChunks text maxLen = body ++ [last] ∧
        (∀ c ∈ body, c.length = maxLen) ∧ 0 < last.length ∧ last.length ≤ maxLen ∧
        body.flatten ++ last = text) := by
  constructor
  · intro h
    rw [splitTextIntoChunks, if_pos h]
  · intro h
    have hne : ¬ text.length ≤ maxLen := by omega
    rw [splitTextIntoChunks, if_neg hne]
    obtain ⟨body, last, heq, hbody, h1, h2⟩ :=
      splitChunksLoopFuel_shape maxLen hpos text.length text (by omega) (by omega)
    refine ⟨body, last, heq, hbody, h1, h2, ?_⟩
    have hfl := splitChunksLoopFuel_flatten maxLen text.length text
    rw [heq] at hfl
    simpa using hfl

/-- Witness for C3 at `text = "abcdefgh"`, `maxLen = 3`. -/
theorem C3_witness :
    ((str "abcdefgh").length ≤ 3 → splitTextIntoChunks (str "abcdefgh") 3 = [str "abcdefgh"]) ∧
    (3 < (str "abcdefgh").length →
      ∃ body last, splitTextIntoChunks (str "abcdefgh") 3 = body ++ [last] ∧
        (∀ c ∈ body, c.length = 3) ∧ 0 < last.length ∧ last.length ≤ 3 ∧
        body.flatten ++ last = str "abcdefgh") :=
  C3_splitTextIntoChunks_spec (str "abcdefgh") 3 (by decide)

/-! ## Properties of the converter -/

/-- A heading's (possibly truncated) text respects the bound. -/
theorem headingText_le (n : HNode) (h : isHeadingNode n) :
    (headingText n).length ≤ MaxBlockTextLength := by
  rw [headingText]
  split
  next hc =>
    have h3 : (str "...").length = 3 := rfl
    simp only [List.length_append, List.length_take, h3]
    have := hc.2
    simp only [MaxBlockTextLength] at this ⊢
    omega
  next hc =>
    have hnl : ¬ MaxBlockTextLength < (extractText n).length := fun hl => hc ⟨h, hl⟩
    omega

/-- Every chunk the converter prepares for a node respects the bound. -/
theorem convertChunks_le (n : HNode) :
    ∀ c ∈ convertChunks n, c.length ≤ MaxBlockTextLength := by
  intro c hc
  rw [convertChunks] at hc
  split at hc
  next hcond =>
    exact splitTextIntoChunks_le _ _ (by simp [MaxBlockTextLength]) c hc
  next hcond =>
    rcases List.mem_singleton.mp hc with rfl
    by_cases hh : isHeadingNode n
    · exact headingText_le n hh
    · have hnl : ¬ MaxBlockTextLength < (headingText n).length := fun hl => hcond ⟨hh, hl⟩
      omega

/-- Every block the per-chunk switch emits carries exactly its chunk as the
single rich text. -/
theorem chunkStep_emit_richText (n : HNode) (c : Str) (b : Block)
    (h : chunkStep n c = .emit b) : b.richText = [c] := by
  rw [chunkStep] at h
  split_ifs at h <;> (injection h with h'; rw [← h'])

/-- Every block produced by the per-chunk loop was emitted by the switch on
one of the supplied chunks. -/
theorem chunksLoop_mem (n : HNode) :
    ∀ (chunks : List Str) (res : List Block), chunksLoop n chunks = some res →
      ∀ b ∈ res, ∃ c ∈ chunks, chunkStep n c = .emit b := by
  intro chunks
  induction chunks with
  | nil =>
    intro res h b hb
    rw [chunksLoop] at h
    cases h
    simp at hb
  | cons c rest ih =>
    intro res h b hb
    rw [chunksLoop] at h
    cases hstep : chunkStep n c <;> rw [hstep] at h
    case abort => exact Option.noConfusion h
    case skip =>
      obtain ⟨c', hc', hs⟩ := ih res h b hb
      exact ⟨c', List.mem_cons_of_mem c hc', hs⟩
    case emit b' =>
      cases hrec : chunksLoop n rest <;> rw [hrec] at h
      · exact Option.noConfusion h
      · next res' =>
          simp only [Option.map_some'] at h
          cases h
          rcases List.mem_cons.mp hb with rfl | hb'
          · exact ⟨c, List.mem_cons_self c rest, hstep⟩
          · obtain ⟨c', hc', hs⟩ := ih res' hrec b hb'
            exact ⟨c', List.mem_cons_of_mem c hc', hs⟩

/-- Every rich text of every block emitted for a single node respects the
bound. -/
theorem convert_richText_le (n : HNode) :
    ∀ b ∈ convertNodeToBlocks n, ∀ t ∈ b.richText, t.length ≤ MaxBlockTextLength := by
  intro b hb t ht
  rw [convertNodeToBlocks] at hb
  split at hb
  · simp at hb
  · split at hb
    · simp at hb
    · rename_i bs heq
      obtain ⟨c2, hc2, hstep⟩ := chunksLoop_mem n _ bs heq b hb
      rw [chunkStep_emit_richText n c2 b hstep] at ht
      rw [List.mem_singleton.mp ht]
      exact convertChunks_le n c2 hc2

/-- Bound for all blocks collected over a tree, by strong induction on the
node size. -/
theorem collectBlocks_richText_le :
    ∀ (k : Nat) (n : HNode), sizeOf n ≤ k →
      ∀ b ∈ collectBlocks n, ∀ t ∈ b.richText, t.length ≤ MaxBlockTextLength := by
  intro k
  induction k with
  | zero =>
    intro n hn b hb t ht
    exfalso
    cases n <;> simp at hn
  | succ k ih =>
    intro n hn b hb t ht
    have hlist : ∀ (l : List HNode), sizeOf l ≤ k + 1 →
        ∀ b ∈ collectBlocksList l, ∀ t ∈ b.richText, t.length ≤ MaxBlockTextLength := by
      intro l
      induction l with
      | nil =>
        intro _ b hb t ht
        rw [collectBlocksList] at hb
        simp at hb
      | cons c rest ihl =>
        intro hsz b hb t ht
        have hspec : sizeOf (c :: rest) = 1 + sizeOf c + sizeOf rest :=
          List.cons.sizeOf_spec c rest
        rw [collectBlocksList] at hb
        rcases List.mem_append.mp hb with h | h
        · exact ih c (by omega) b h t ht
        · exact ihl (by omega) b h t ht
    cases n with
    | text d =>
      rw [collectBlocks] at hb
      simp at hb
    | elem tag attrs cs =>
      have hspec : sizeOf (HNode.elem tag attrs cs) = 1 + sizeOf tag + sizeOf attrs + sizeOf cs :=
        HNode.elem.sizeOf_spec tag attrs cs
      rw [collectBlocks] at hb
      rcases List.mem_append.mp hb with h | h
      · exact convert_richText_le _ b h t ht
      · exact hlist cs (by omega) b h t ht
    | doc cs =>
      have hspec : sizeOf (HNode.doc cs) = 1 + sizeOf cs := HNode.doc.sizeOf_spec cs
      rw [collectBlocks] at hb
      exact hlist cs (by omega) b hb t ht

/-- C1: every ContentBlock emitted by the export conversion
(`HTMLToNotionBlocks`) has rich-text content of length at most
`MaxBlockTextLength` (2000): non-heading blocks by chunk splitting, heading
(h1/h2/h3) blocks by truncation, and the empty-document placeholder
trivially. -/
theorem C1_blocks_within_limit (d : HNode) (b : Block) (hb : b ∈ HTMLToNotionBlocks d)
    (t : Str) (ht : t ∈ b.richText) : t.length ≤ MaxBlockTextLength := by
  simp only [HTMLToNotionBlocks] at hb
  split at hb
  · rw [List.mem_singleton.mp hb] at ht
    rcases List.mem_singleton.mp ht with rfl
    simp [MaxBlockTextLength]
  · exact collectBlocks_richText_le (sizeOf d) d le_rfl b hb t ht

/-- Witness for C1: the paragraph emitted for `<p>hi</p>` is in the output
and its text respects the bound. -/
theorem C1_witness :
    (⟨"block", "paragraph", [str "hi"], none⟩ : Block) ∈
        HTMLToNotionBlocks (.doc [.elem "p" [] [.text (str "hi")]]) ∧
    (str "hi").length ≤ MaxBlockTextLength :=
  ⟨by decide,
   C1_blocks_within_limit (.doc [.elem "p" [] [.text (str "hi")]])
     ⟨"block", "paragraph", [str "hi"], none⟩ (by decide) (str "hi") (by decide)⟩

/-- If the switch emits the same block shape for every chunk, the per-chunk
loop succeeds and maps the chunks to blocks. -/
theorem chunksLoop_map (n : HNode) (f : Str → Block)
    (hf : ∀ c, chunkStep n c = .emit (f c)) :
    ∀ chunks : List Str, chunksLoop n chunks = some (chunks.map f) := by
  intro chunks
  induction chunks with
  | nil => rfl
  | cons c rest ih =>
    rw [chunksLoop, hf c, ih]
    rfl

/-- For a non-heading node whose switch case always emits (carrying the chunk
as the rich text), the emitted blocks' texts concatenate back to the
extracted text. -/
theorem convert_flatten_of_split (n : HNode) (f : Str → Block)
    (hhead : ¬ isHeadingNode n)
    (hf : ∀ c, chunkStep n c = .emit (f c))
    (hrich : ∀ c, (f c).richText = [c]) :
    ((convertNodeToBlocks n).map (fun b => b.richText.flatten)).flatten = extractText n := by
  have hht : headingText n = extractText n := by
    rw [headingText, if_neg (fun hc => hhead hc.1)]
  rw [convertNodeToBlocks]
  split
  next he => rw [he]; rfl
  next he =>
    rw [chunksLoop_map n f hf]
    have : ∀ chunks : List Str,
        ((chunks.map f).map (fun b => b.richText.flatten)).flatten = chunks.flatten := by
      intro chunks
      rw [List.map_map]
      have hmap : List.map ((fun (b : Block) => b.richText.flatten) ∘ f) chunks
          = List.map id chunks := by
        refine List.map_congr_left ?_
        intro c _
        simp [Function.comp, hrich c]
      rw [hmap, List.map_id]
    rw [this]
    rw [convertChunks]
    split
    next hc => rw [splitTextIntoChunks_flatten, hht]
    next hc => simp [hht]

/-- Runs of `'a'` are untouched by the whitespace `dropWhile`. -/
theorem dropWhile_space_replicate_a (n : Nat) :
    List.dropWhile isSpaceChar (List.replicate n 'a') = List.replicate n 'a' := by
  cases n with
  | zero => rfl
  | succ m =>
    have h : isSpaceChar 'a' = false := rfl
    rw [List.replicate_succ, List.dropWhile_cons, h]
    simp

/-- Runs of `'a'` are untouched by `trimSpace`. -/
theorem trimSpace_replicate_a (n : Nat) :
    trimSpace (List.replicate n 'a') = List.replicate n 'a' := by
  rw [trimSpace, dropWhile_space_replicate_a, List.reverse_replicate,
    dropWhile_space_replicate_a, List.reverse_replicate]

/-- Extraction of a non-container element with a single text child holding a
run of `'a'`. -/
theorem extractText_replicate (tag : String) (attrs : List (String × String))
    (hne : ¬ (tag = "ul" ∨ tag = "ol" ∨ tag = "div")) (m : Nat) :
    extractText (.elem tag attrs [.text (List.replicate m 'a')]) = List.replicate m 'a' := by
  rw [extractText, if_neg hne, extractChildren, extractChildren, List.append_nil,
    trimSpace_replicate_a]

/-- C2 counterexample: an `h1` heading with 2001 characters of extracted text
is Block-classified with text exceeding the limit, yet the concatenation of
the rich texts of the blocks produced for it is the 2000-character
truncation, not the original extracted text. -/
theorem C2_counterexample :
    MaxBlockTextLength <
        (extractText (HNode.elem "h1" [] [HNode.text (List.replicate 2001 'a')])).length ∧
    ((convertNodeToBlocks (HNode.elem "h1" [] [HNode.text (List.replicate 2001 'a')])).map
        (fun b => b.richText.flatten)).flatten
      ≠ extractText (HNode.elem "h1" [] [HNode.text (List.replicate 2001 'a')]) := by
  have hext : extractText (HNode.elem "h1" [] [HNode.text (List.replicate 2001 'a')])
      = List.replicate 2001 'a' :=
    extractText_replicate "h1" [] (by decide) 2001
  have hextlen : MaxBlockTextLength <
      (extractText (HNode.elem "h1" [] [HNode.text (List.replicate 2001 'a')])).length := by
    rw [hext, List.length_replicate]
    decide
  have hhead : isHeadingNode (HNode.elem "h1" [] [HNode.text (List.replicate 2001 'a')]) :=
    Or.inl rfl
  have hht : headingText (HNode.elem "h1" [] [HNode.text (List.replicate 2001 'a')])
      = List.replicate 1997 'a' ++ str "..." := by
    rw [headingText, if_pos ⟨hhead, hextlen⟩, hext, List.take_replicate]
    norm_num [MaxBlockTextLength]
  have hchunks : convertChunks (HNode.elem "h1" [] [HNode.text (List.replicate 2001 'a')])
      = [List.replicate 1997 'a' ++ str "..."] := by
    rw [convertChunks, if_neg (fun hc => hc.1 hhead), hht]
  have hne : extractText (HNode.elem "h1" [] [HNode.text (List.replicate 2001 'a')]) ≠ [] := by
    intro h
    rw [h] at hextlen
    simp at hextlen
  have hconv : convertNodeToBlocks (HNode.elem "h1" [] [HNode.text (List.replicate 2001 'a')])
      = [⟨"block", "heading_1", [List.replicate 1997 'a' ++ str "..."], none⟩] := by
    rw [convertNodeToBlocks, if_neg hne, hchunks,
      chunksLoop_map (HNode.elem "h1" [] [HNode.text (List.replicate 2001 'a')])
        (fun c => ⟨"block", "heading_1", [c], none⟩) (fun c => rfl)]
    rfl
  refine ⟨hextlen, ?_⟩
  rw [hext, hconv]
  simp only [List.map_cons, List.map_nil, List.flatten_cons, List.flatten_nil,
    List.append_nil]
  intro heq
  have hlen := congrArg List.length heq
  have h3 : (str "...").length = 3 := rfl
  rw [List.length_append, List.length_replicate, List.length_replicate, h3] at hlen
  exact absurd hlen (by decide)

/-- C2 (amended): for every node whose tag is one of `p`, `li`,
`blockquote`, `pre`, `code` — the non-heading Block tags for which the
exporter emits blocks — with extracted text longer than
`MaxBlockTextLength`, concatenating in order the rich-text contents of all
ContentBlocks produced for that node yields exactly the original extracted
text.  (Heading tags are truncated instead, and the remaining Block tags of
the classifier emit no blocks at all in the export path.) -/
theorem C2_amended_chunking_lossless (tag : String) (attrs : List (String × String))
    (cs : List HNode)
    (htag : tag = "p" ∨ tag = "li" ∨ tag = "blockquote" ∨ tag = "pre" ∨ tag = "code")
    (_hlen : MaxBlockTextLength < (extractText (HNode.elem tag attrs cs)).length) :
    ((convertNodeToBlocks (HNode.elem tag attrs cs)).map
        (fun b => b.richText.flatten)).flatten
      = extractText (HNode.elem tag attrs cs) := by
  rcases htag with rfl | rfl | rfl | rfl | rfl
  · exact convert_flatten_of_split _ (fun c => ⟨"block", "paragraph", [c], none⟩)
      (by intro h; rcases h with h | h | h <;> (simp only [nodeData] at h; exact absurd h (by decide)))
      (fun c => rfl) (fun c => rfl)
  · exact convert_flatten_of_split _ (fun c => ⟨"block", "bulleted_list_item", [c], none⟩)
      (by intro h; rcases h with h | h | h <;> (simp only [nodeData] at h; exact absurd h (by decide)))
      (fun c => rfl) (fun c => rfl)
  · exact convert_flatten_of_split _ (fun c => ⟨"block", "quote", [c], none⟩)
      (by intro h; rcases h with h | h | h <;> (simp only [nodeData] at h; exact absurd h (by decide)))
      (fun c => rfl) (fun c => rfl)
  · exact convert_flatten_of_split _ (fun c => ⟨"block", "code", [c], some "plain text"⟩)
      (by intro h; rcases h with h | h | h <;> (simp only [nodeData] at h; exact absurd h (by decide)))
      (fun c => rfl) (fun c => rfl)
  · exact convert_flatten_of_split _ (fun c => ⟨"block", "code", [c], some "plain text"⟩)
      (by intro h; rcases h with h | h | h <;> (simp only [nodeData] at h; exact absurd h (by decide)))
      (fun c => rfl) (fun c => rfl)

/-- Witness for the amended C2: a `p` node with 2001 characters is split and
reassembles to the extracted text. -/
theorem C2_witness :
    MaxBlockTextLength <
        (extractText (HNode.elem "p" [] [HNode.text (List.replicate 2001 'a')])).length ∧
    ((convertNodeToBlocks (HNode.elem "p" [] [HNode.text (List.replicate 2001 'a')])).map
        (fun b => b.richText.flatten)).flatten
      = extractText (HNode.elem "p" [] [HNode.text (List.replicate 2001 'a')]) := by
  have hlen : MaxBlockTextLength <
      (extractText (HNode.elem "p" [] [HNode.text (List.replicate 2001 'a')])).length := by
    rw [extractText_replicate "p" [] (by decide) 2001, List.length_replicate]
    decide
  exact ⟨hlen, C2_amended_chunking_lossless "p" [] [HNode.text (List.replicate 2001 'a')]
    (Or.inl rfl) hlen⟩

/-! ## Properties of the inline augmenter -/

/-- The translator's block tags and opaque tags are disjoint. -/
theorem translatable_not_code (n : HNode) (h : isTranslatableBlock n = true) :
    isCodeBlock n = false := by
  cases n with
  | text d => simp [isTranslatableBlock] at h
  | doc cs => simp [isTranslatableBlock] at h
  | elem tag attrs cs =>
    simp only [isTranslatableBlock, Bool.or_eq_true, beq_iff_eq] at h
    rcases h with ((((((((((((((h | h) | h) | h) | h) | h) | h) | h) | h) | h) | h) | h)
      | h) | h) | h) <;> subst h <;> rfl

/-- C4 (amended): in the Augmentation path, a subtree rooted at an Opaque
tag (`pre`, `code`, `kbd`, `samp`, `var`) is serialized verbatim with no
Translate call and no error, and contributes nothing to any enclosing
block's extracted (translatable) text.  (The Export path, by contrast,
chunk-splits over-long `pre`/`code` content and emits nothing at all for
`kbd`/`samp`/`var` nodes — see the counterexample.) -/
theorem C4_amended_opaque_augmentation (tr : Str → Option Str) (n : HNode)
    (h : isCodeBlock n = true) :
    traverseAndTranslate tr n = (render n, [], false) ∧ trExtractText n = [] := by
  cases n with
  | text d => simp [isCodeBlock] at h
  | doc cs => simp [isCodeBlock] at h
  | elem tag attrs cs =>
    constructor
    · rw [traverseAndTranslate, if_pos h]
    · rw [trExtractText, if_pos h]

/-- Witness for the amended C4 at `<pre>x=1</pre>`. -/
theorem C4_witness :
    isCodeBlock (HNode.elem "pre" [] [HNode.text (str "x=1")]) = true ∧
    (traverseAndTranslate (fun _ => none) (HNode.elem "pre" [] [HNode.text (str "x=1")])
        = (render (HNode.elem "pre" [] [HNode.text (str "x=1")]), [], false) ∧
      trExtractText (HNode.elem "pre" [] [HNode.text (str "x=1")]) = []) :=
  ⟨by decide, C4_amended_opaque_augmentation (fun _ => none) _ (by decide)⟩

/-- C4 counterexample: the claim fails on the Export path.  A `pre` subtree
with 2001 characters of content is chunk-split into two Code blocks, and a
`kbd` subtree's content does not appear in the Export output at all (the
document yields only the empty placeholder paragraph). -/
theorem C4_counterexample :
    (convertNodeToBlocks (HNode.elem "pre" [] [HNode.text (List.replicate 2001 'a')])).length
      = 2 ∧
    HTMLToNotionBlocks (.doc [.elem "html" [] [.elem "head" [] [],
        .elem "body" [] [.elem "kbd" [] [.text (str "xy")]]]])
      = [emptyParagraphBlock] := by
  constructor
  · have hext : extractText (HNode.elem "pre" [] [HNode.text (List.replicate 2001 'a')])
        = List.replicate 2001 'a' := extractText_replicate "pre" [] (by decide) 2001
    have hextlen : MaxBlockTextLength <
        (extractText (HNode.elem "pre" [] [HNode.text (List.replicate 2001 'a')])).length := by
      rw [hext, List.length_replicate]
      decide
    have hhead : ¬ isHeadingNode (HNode.elem "pre" [] [HNode.text (List.replicate 2001 'a')]) := by
      intro h
      rcases h with h | h | h <;> (simp only [nodeData] at h; exact absurd h (by decide))
    have hht : headingText (HNode.elem "pre" [] [HNode.text (List.replicate 2001 'a')])
        = List.replicate 2001 'a' := by
      rw [headingText, if_neg (fun hc => hhead hc.1), hext]
    have hchunks : convertChunks (HNode.elem "pre" [] [HNode.text (List.replicate 2001 'a')])
        = splitTextIntoChunks (List.replicate 2001 'a') MaxBlockTextLength := by
      rw [convertChunks, if_pos ⟨hhead, by rw [hht, List.length_replicate]; decide⟩, hht]
    have hne : extractText (HNode.elem "pre" [] [HNode.text (List.replicate 2001 'a')]) ≠ [] := by
      intro h
      rw [h] at hextlen
      simp at hextlen
    have hconv : convertNodeToBlocks (HNode.elem "pre" [] [HNode.text (List.replicate 2001 'a')])
        = (splitTextIntoChunks (List.replicate 2001 'a') MaxBlockTextLength).map
            (fun c => ⟨"block", "code", [c], some "plain text"⟩) := by
      rw [convertNodeToBlocks, if_neg hne, hchunks,
        chunksLoop_map (HNode.elem "pre" [] [HNode.text (List.replicate 2001 'a')])
          (fun c => ⟨"block", "code", [c], some "plain text"⟩) (fun c => rfl)]
    rw [hconv, List.length_map, splitTextIntoChunks,
      if_neg (by rw [List.length_replicate]; decide)]
    obtain ⟨body, last, heq, hbody, hl1, hl2⟩ :=
      splitChunksLoopFuel_shape MaxBlockTextLength (by decide)
        (List.replicate 2001 'a').length (List.replicate 2001 'a')
        (by omega) (by rw [List.length_replicate]; decide)
    have hflat := splitChunksLoopFuel_flatten MaxBlockTextLength
      (List.replicate 2001 'a').length (List.replicate 2001 'a')
    rw [heq] at hflat
    simp only [List.flatten_append, List.flatten_cons, List.flatten_nil,
      List.append_nil] at hflat
    have hlen := congrArg List.length hflat
    rw [List.length_append, List.length_replicate] at hlen
    have hbl : body.flatten.length = 2000 * body.length := by
      rw [List.length_flatten]
      have hrep : body.map List.length = List.replicate (body.map List.length).length 2000 := by
        refine List.eq_replicate_of_mem ?_
        intro x hx
        obtain ⟨c, hc, rfl⟩ := List.mem_map.mp hx
        exact hbody c hc
      rw [hrep, List.sum_replicate, smul_eq_mul, List.length_map]
      exact Nat.mul_comm _ _
    have hM : MaxBlockTextLength = 2000 := rfl
    rw [hM] at hl2
    rw [heq, List.length_append, List.length_singleton]
    omega
  · decide

/-- C5 counterexample: for `<div><pre>x=1</pre></div>` the augmenter emits
nothing at all — it does not recurse into the children of the Block-classified
`div` whose extracted text is empty, although the children's own augmentation
is non-empty, so the `pre` content is dropped. -/
theorem C5_counterexample :
    traverseAndTranslate (fun _ => none)
        (HNode.elem "div" [] [HNode.elem "pre" [] [HNode.text (str "x=1")]])
      = ([], [], false) ∧
    traverseChildren (fun _ => none) [HNode.elem "pre" [] [HNode.text (str "x=1")]]
      ≠ ([], [], false) := by
  constructor
  · decide
  · decide

/-- C5 (amended): in the Augmentation path, for a Block-classified element
node whose extracted text is empty after trimming, the augmenter emits
nothing for the node and does not recurse into its children (the source
returns nil immediately after the emptiness test), so content reachable only
through such a node is dropped from the augmentation output. -/
theorem C5_amended_empty_block_emits_nothing (tr : Str → Option Str) (tag : String)
    (attrs : List (String × String)) (cs : List HNode)
    (hblock : isTranslatableBlock (.elem tag attrs cs) = true)
    (hempty : trimSpace (trExtractText (.elem tag attrs cs)) = []) :
    traverseAndTranslate tr (.elem tag attrs cs) = ([], [], false) := by
  have hcode := translatable_not_code _ hblock
  rw [traverseAndTranslate, if_neg (by simp [hcode]), if_pos hblock,
    if_neg (show ¬ (trimSpace (trExtractText (.elem tag attrs cs)) ≠ []) from
      fun hc => hc hempty)]

/-- Witness for the amended C5 at `<div></div>`. -/
theorem C5_witness :
    isTranslatableBlock (HNode.elem "div" [] []) = true ∧
    trimSpace (trExtractText (HNode.elem "div" [] [])) = [] ∧
    traverseAndTranslate (fun _ => none) (HNode.elem "div" [] []) = ([], [], false) :=
  ⟨by decide, by decide,
   C5_amended_empty_block_emits_nothing (fun _ => none) "div" [] [] (by decide) (by decide)⟩

/-- C6: in the Augmentation path, for a Block node with non-blank extracted
text on which the injected Translate capability returns an error, the output
contributed by that node is exactly the node's original serialization with
no injected translation sibling and no Translate output, the Go error is
nil, and processing of following siblings continues normally. -/
theorem C6_translation_error_swallowed (tr : Str → Option Str) (n : HNode)
    (hblock : isTranslatableBlock n = true)
    (htext : trimSpace (trExtractText n) ≠ [])
    (herr : tr (trimSpace (trExtractText n)) = none) :
    traverseAndTranslate tr n = (render n, [trimSpace (trExtractText n)], false) ∧
    ∀ rest : List HNode,
      traverseChildren tr (n :: rest)
        = (render n ++ (traverseChildren tr rest).1,
           trimSpace (trExtractText n) :: (traverseChildren tr rest).2.1,
           (traverseChildren tr rest).2.2) := by
  cases n with
  | text d => simp [isTranslatableBlock] at hblock
  | doc cs => simp [isTranslatableBlock] at hblock
  | elem tag attrs cs =>
    have hcode := translatable_not_code _ hblock
    have h1 : traverseAndTranslate tr (.elem tag attrs cs)
        = (render (.elem tag attrs cs),
           [trimSpace (trExtractText (.elem tag attrs cs))], false) := by
      rw [traverseAndTranslate, if_neg (by simp [hcode]), if_pos hblock, if_pos htext, herr]
    refine ⟨h1, ?_⟩
    intro rest
    rw [traverseChildren, h1]
    simp

/-- Witness for C6 at `<p>hi</p>` with an always-failing translator. -/
theorem C6_witness :
    trimSpace (trExtractText (HNode.elem "p" [] [HNode.text (str "hi")])) ≠ [] ∧
    traverseAndTranslate (fun _ => none) (HNode.elem "p" [] [HNode.text (str "hi")])
      = (render (HNode.elem "p" [] [HNode.text (str "hi")]),
         [trimSpace (trExtractText (HNode.elem "p" [] [HNode.text (str "hi")]))], false) :=
  ⟨by decide,
   (C6_translation_error_swallowed (fun _ => none) (HNode.elem "p" [] [HNode.text (str "hi")])
     (by decide) (by decide) rfl).1⟩

/-! ## Properties of the client batching -/

/-- The append batches concatenate back to the appended blocks. -/
theorem appendBatchesFuel_flatten :
    ∀ (fuel : Nat) (blocks : List Block), blocks.length ≤ fuel →
      (appendBatchesFuel fuel blocks).flatten = blocks := by
  intro fuel
  induction fuel with
  | zero =>
    intro blocks h
    have : blocks = [] := List.eq_nil_of_length_eq_zero (by omega)
    subst this
    rfl
  | succ fuel ih =>
    intro blocks h
    rw [appendBatchesFuel]
    split
    next he => rw [he]; rfl
    next he =>
      have hpos : 0 < blocks.length := List.length_pos.mpr he
      rw [List.flatten_cons, ih (blocks.drop MaxBlocksPerRequest)
        (by simp only [List.length_drop, MaxBlocksPerRequest]; omega)]
      exact List.take_append_drop _ _

/-- The number of append batches is the ceiling of the block count divided
by `MaxBlocksPerRequest`. -/
theorem appendBatchesFuel_length :
    ∀ (fuel : Nat) (blocks : List Block), blocks.length ≤ fuel →
      (appendBatchesFuel fuel blocks).length
        = (blocks.length + (MaxBlocksPerRequest - 1)) / MaxBlocksPerRequest := by
  intro fuel
  induction fuel with
  | zero =>
    intro blocks h
    have : blocks = [] := List.eq_nil_of_length_eq_zero (by omega)
    subst this
    rfl
  | succ fuel ih =>
    intro blocks h
    rw [appendBatchesFuel]
    split
    next he =>
      rw [he]
      rfl
    next he =>
      have hpos : 0 < blocks.length := List.length_pos.mpr he
      rw [List.length_cons, ih (blocks.drop MaxBlocksPerRequest)
        (by simp only [List.length_drop, MaxBlocksPerRequest]; omega)]
      simp only [List.length_drop, MaxBlocksPerRequest]
      omega

/-- Every append batch holds at most `MaxBlocksPerRequest` blocks. -/
theorem appendBatchesFuel_le :
    ∀ (fuel : Nat) (blocks : List Block),
      ∀ batch ∈ appendBatchesFuel fuel blocks, batch.length ≤ MaxBlocksPerRequest := by
  intro fuel
  induction fuel with
  | zero =>
    intro blocks batch hb
    rw [appendBatchesFuel] at hb
    simp at hb
  | succ fuel ih =>
    intro blocks batch hb
    rw [appendBatchesFuel] at hb
    split at hb
    · simp at hb
    · rcases List.mem_cons.mp hb with rfl | hb
      · simp [List.length_take]
      · exact ih _ batch hb

/-- C7: for every block sequence, the initial page-creation request carries
the first `min(N, MaxBlocksPerRequest)` blocks, and exactly
`ceil(max(0, N - MaxBlocksPerRequest) / MaxBlocksPerRequest)` append batches
follow, each of at most `MaxBlocksPerRequest` blocks, whose concatenation is
the remaining blocks in their original order. -/
theorem C7_export_batching (blocks : List Block) :
    (createPagePlan blocks).1 = blocks.take (min blocks.length MaxBlocksPerRequest) ∧
    (createPagePlan blocks).2.length
      = (blocks.length - MaxBlocksPerRequest + (MaxBlocksPerRequest - 1))
          / MaxBlocksPerRequest ∧
    (∀ batch ∈ (createPagePlan blocks).2, batch.length ≤ MaxBlocksPerRequest) ∧
    (createPagePlan blocks).2.flatten = blocks.drop MaxBlocksPerRequest := by
  rw [createPagePlan]
  by_cases h : MaxBlocksPerRequest < blocks.length
  · rw [if_pos h, if_pos h]
    refine ⟨?_, ?_, ?_, ?_⟩
    · rw [Nat.min_eq_right (Nat.le_of_lt h)]
    · rw [appendBatches, appendBatchesFuel_length _ _ le_rfl, List.length_drop]
    · intro batch hb
      exact appendBatchesFuel_le _ _ batch hb
    · exact appendBatchesFuel_flatten _ _ le_rfl
  · rw [if_neg h, if_neg h]
    refine ⟨?_, ?_, ?_, ?_⟩
    · rw [Nat.min_eq_left (Nat.le_of_not_lt h), List.take_length]
    · simp only [MaxBlocksPerRequest] at h
      simp only [List.length_nil, MaxBlocksPerRequest]
      omega
    · intro batch hb
      simp at hb
    · rw [List.flatten_nil, List.drop_eq_nil_of_le (Nat.le_of_not_lt h)]

/-- Witness for C7 at 250 placeholder blocks: initial 100, then batches of
100 and 50 covering the rest in order. -/
theorem C7_witness :
    (createPagePlan (List.replicate 250 emptyParagraphBlock)).1
        = (List.replicate 250 emptyParagraphBlock).take
            (min (List.replicate 250 emptyParagraphBlock).length MaxBlocksPerRequest) ∧
    (createPagePlan (List.replicate 250 emptyParagraphBlock)).2.length
        = ((List.replicate 250 emptyParagraphBlock).length - MaxBlocksPerRequest
            + (MaxBlocksPerRequest - 1)) / MaxBlocksPerRequest ∧
    (∀ batch ∈ (createPagePlan (List.replicate 250 emptyParagraphBlock)).2,
        batch.length ≤ MaxBlocksPerRequest) ∧
    (createPagePlan (List.replicate 250 emptyParagraphBlock)).2.flatten
        = (List.replicate 250 emptyParagraphBlock).drop MaxBlocksPerRequest :=
  C7_export_batching (List.replicate 250 emptyParagraphBlock)

/-- C8: if page creation fails, `CreatePage` returns an error with the empty
URL; if creation succeeds but some append batch then fails, it returns an
error together with the already-created page's URL. -/
theorem C8_partial_success_reported :
    (∀ (appendOk : Nat → Bool) (blocks : List Block),
      CreatePage none appendOk blocks = ("", true)) ∧
    (∀ (id url : String) (appendOk : Nat → Bool) (blocks : List Block),
      MaxBlocksPerRequest < blocks.length →
      appendBlocksRun appendOk (appendBatches (blocks.drop MaxBlocksPerRequest)) 0 = false →
      CreatePage (some (id, url)) appendOk blocks = (url, true)) := by
  constructor
  · intro appendOk blocks
    rfl
  · intro id url appendOk blocks hlen hfail
    rw [CreatePage]
    simp only [if_pos hlen, hfail]
    rfl

/-- Witness for C8: 101 blocks with an always-failing append step yield the
created page's URL together with the error; a failed creation yields no URL. -/
theorem C8_witness :
    CreatePage none (fun _ => true) (List.replicate 5 emptyParagraphBlock) = ("", true) ∧
    MaxBlocksPerRequest < (List.replicate 101 emptyParagraphBlock).length ∧
    CreatePage (some ("pageid", "pageurl")) (fun _ => false)
        (List.replicate 101 emptyParagraphBlock) = ("pageurl", true) :=
  ⟨C8_partial_success_reported.1 (fun _ => true) (List.replicate 5 emptyParagraphBlock),
   by decide,
   C8_partial_success_reported.2 "pageid" "pageurl" (fun _ => false)
     (List.replicate 101 emptyParagraphBlock) (by decide) (by decide)⟩

/-- C9 counterexample: a bare text node `hello` in the body has non-blank
trimmed content and no Block-tagged ancestor, yet the export yields only the
empty placeholder paragraph — no implicit Paragraph block carries `hello`,
because the traversal never invokes the converter on text nodes. -/
theorem C9_counterexample :
    HTMLToNotionBlocks (.doc [.elem "html" [] [.elem "head" [] [],
        .elem "body" [] [.text (str "hello")]]])
      = [emptyParagraphBlock] ∧
    trimSpace (str "hello") ≠ [] ∧
    emptyParagraphBlock.richText = [[]] :=
  ⟨by decide, by decide, rfl⟩

/-- C9 (amended): the export traversal converts only element nodes — a text
node itself never produces a ContentBlock (the converter's implicit-Paragraph
branch for text nodes is unreachable), its content surfacing only through an
enclosing element's extraction — and the Augmentation path likewise acts only
on element nodes, writing nothing for a bare text node. -/
theorem C9_amended_text_nodes_not_converted (d : Str) (tr : Str → Option Str) :
    collectBlocks (HNode.text d) = [] ∧
    traverseAndTranslate tr (HNode.text d) = ([], [], false) :=
  ⟨rfl, rfl⟩

/-- C10: the export traversal invokes the per-node converter on every element
node and then unconditionally recurses into its children (the recursion
equation of the first conjunct), so for a `p` nested inside a `blockquote`
the inner extracted text appears in two emitted ContentBlocks: once inside
the ancestor's quote block and once in the inner paragraph's own block. -/
theorem C10_nested_blocks_duplicated :
    (∀ (tag : String) (attrs : List (String × String)) (cs : List HNode),
      collectBlocks (HNode.elem tag attrs cs)
        = convertNodeToBlocks (HNode.elem tag attrs cs) ++ collectBlocksList cs) ∧
    (HTMLToNotionBlocks (.doc [.elem "html" [] [.elem "head" [] [],
        .elem "body" [] [.elem "blockquote" [] [.elem "p" [] [.text (str "hi")]]]]])).map
        (fun b => (b.type, b.richText.flatten))
      = [("quote", str "hi"), ("paragraph", str "hi")] :=
  ⟨fun _ _ _ => rfl, by decide⟩
